import Mathlib

/-
  Verification of the anchor/offset maintenance core of the QtMWidgets
  AbstractListView (src/src/abstractlistview.hpp), shallowly embedded in Lean.

  The embedding models C++ int arithmetic with Int (no overflow occurs at the
  magnitudes considered), Qt's QRect with integer closed-pixel coordinates, and
  each C++ while loop as a structurally recursive function whose Nat fuel is the
  exact iteration bound established by the loop's own guard (so the fuel branch
  is unreachable on the calls the source performs, and the definitions compute).
-/

namespace QtMW

/-- Qt rectangle: position and size, with Qt's closed coordinates
(right edge is x + w - 1, bottom edge is y + h - 1). -/
structure QRect where
  x : Int
  y : Int
  w : Int
  h : Int
deriving DecidableEq, Repr

/-- Default-constructed QRect(), the "empty rectangle" the view returns. -/
def QRect.null : QRect := ⟨0, 0, 0, 0⟩

/-- QRect::isNull: both width and height are 0. -/
def QRect.isNull (r : QRect) : Bool := r.w == 0 && r.h == 0

/-- QRect::isEmpty for rectangles with non-negative sizes: width or height ≤ 0. -/
def QRect.isEmpty (r : QRect) : Bool := r.w ≤ 0 || r.h ≤ 0

/-- QRect::contains(point): inside or on the edge; false on an empty rect. -/
def QRect.contains (r : QRect) (px py : Int) : Bool :=
  decide (0 < r.w ∧ 0 < r.h ∧
    r.x ≤ px ∧ px ≤ r.x + r.w - 1 ∧ r.y ≤ py ∧ py ≤ r.y + r.h - 1)

/-- QRect::intersected, for rectangles with non-negative sizes: the overlap
rectangle, or a null rectangle when either input is empty or they are disjoint. -/
def QRect.intersected (a b : QRect) : QRect :=
  if a.isEmpty || b.isEmpty then QRect.null
  else
    let l := max a.x b.x
    let t := max a.y b.y
    let rr := min (a.x + a.w - 1) (b.x + b.w - 1)
    let bb := min (a.y + a.h - 1) (b.y + b.h - 1)
    if l ≤ rr ∧ t ≤ bb then ⟨l, t, rr - l + 1, bb - t + 1⟩ else QRect.null

/-- The list view's state: the ListModel as seen by the view (row count and the
pure heightForWidth function), the spacing, the viewport rectangle's size
(QWidget::rect() always has origin (0,0)), and the two persistent fields of
AbstractListViewPrivate: firstVisibleRow (the anchor) and offset. -/
structure LV where
  count : Int
  hfw : Int → Int → Int
  spacing : Int
  vw : Int
  vh : Int
  firstVisibleRow : Int
  offset : Int

/-- Row width used by every walk: viewport width minus spacing on both sides. -/
def rowWidth (st : LV) : Int := st.vw - st.spacing * 2

/-- Viewport rectangle (QWidget::rect(), origin (0,0)). -/
def viewportRect (st : LV) : QRect := ⟨0, 0, st.vw, st.vh⟩

/-- Loop of AbstractListViewPrivate::canScrollDown: from the given row,
accumulate heights plus spacing while y is above the window bottom and rows
remain; fuel is (count - row).toNat, exactly the iterations the guard allows. -/
def canScrollDownLoop (st : LV) : Nat → Int → Int → Bool
  | 0, _, row => decide (row < st.count)
  | f + 1, y, row =>
    if y < st.vh ∧ row < st.count then
      canScrollDownLoop st f (y + st.hfw row (rowWidth st) + st.spacing) (row + 1)
    else decide (row < st.count)

/-- AbstractListViewPrivate::canScrollDown (lines 685-707): false for row -1,
otherwise walk a window-full forward from row and report whether rows remain. -/
def canScrollDown (st : LV) (row : Int) : Bool :=
  if row = -1 then false
  else canScrollDownLoop st (st.count - row).toNat st.spacing row

/-- Loop of AbstractListViewPrivate::maxOffset: walk backward from the last row
accumulating heights plus spacing while y < window height and row ≥ 0; fuel is
(row + 1).toNat. Returns the accumulated y. -/
def maxOffsetLoop (st : LV) : Nat → Int → Int → Int
  | 0, y, _ => y
  | f + 1, y, row =>
    if y < st.vh ∧ 0 ≤ row then
      maxOffsetLoop st f (y + st.hfw row (rowWidth st) + st.spacing) (row - 1)
    else y

/-- AbstractListViewPrivate::maxOffset (lines 629-649): window height minus the
backward-accumulated extent minus 1 when that extent exceeds the window height,
else 0. -/
def maxOffset (st : LV) : Int :=
  let y := maxOffsetLoop st st.count.toNat 0 (st.count - 1)
  if y > st.vh then st.vh - y - 1 else 0

/-- Positive-offset loop of normalizeOffset (lines 720-733): while offset > 0,
subtract the CURRENT row's height plus spacing, then decrement the row; when the
row is 0, set offset to 0 and stop. The row is ≥ 0 throughout (the loop is only
entered with row > 0), so it is carried as a Nat. -/
def normUpLoop (st : LV) : Nat → Int → Int × Int
  | 0, offset => if offset > 0 then (0, 0) else (0, offset)
  | r + 1, offset =>
      if offset > 0 then
        normUpLoop st r (offset - (st.hfw ((r : Int) + 1) (rowWidth st) + st.spacing))
      else ((r : Int) + 1, offset)

/-- Negative-offset loop of normalizeOffset (lines 745-760): while |offset|
exceeds the current row's height plus spacing, add that extent; advance to the
next row when one exists, else set offset to 0 and stop. Fuel is
(count - 1 - row).toNat: it is 0 exactly when the guard row < count - 1 fails. -/
def normDownLoop (st : LV) : Nat → Int → Int → Int × Int
  | 0, row, offset =>
      if |offset| > st.hfw row (rowWidth st) + st.spacing then (row, 0) else (row, offset)
  | f + 1, row, offset =>
      let ht := st.hfw row (rowWidth st)
      if |offset| > ht + st.spacing then normDownLoop st f (row + 1) (offset + ht + st.spacing)
      else (row, offset)

/-- AbstractListViewPrivate::normalizeOffset (lines 709-770). -/
def normalizeOffset (st : LV) (row offset : Int) : Int × Int :=
  if offset > 0 then
    if row > 0 then normUpLoop st row.toNat offset
    else (row, 0)
  else if offset < 0 then
    if canScrollDown st row then
      normDownLoop st (st.count - 1 - row).toNat row offset
    else
      let mx := maxOffset st
      (row, if offset < mx then mx else offset)
  else (row, offset)

/-- Sum of height(row) + spacing over n consecutive rows starting at lo; the
closed form of the walks in calculateScroll (lines 651-683), where the up-branch
adds spacing + height for each row from firstVisibleRow - 1 down to row and the
down-branch subtracts height + spacing for each row from firstVisibleRow up to
row - 1. -/
def walkSum (st : LV) : Int → Nat → Int
  | _, 0 => 0
  | lo, n + 1 => st.hfw lo (rowWidth st) + st.spacing + walkSum st (lo + 1) n

/-- AbstractListViewPrivate::calculateScroll (lines 651-683). -/
def calculateScroll (st : LV) (row expectedOffset : Int) : Int :=
  let delta := - st.offset + expectedOffset
  if st.firstVisibleRow > row then
    delta + walkSum st row (st.firstVisibleRow - row).toNat
  else if st.firstVisibleRow < row then
    delta - walkSum st st.firstVisibleRow (row - st.firstVisibleRow).toNat
  else delta

/-- AbstractListView::scrollContentsBy (lines 471-480): add the pan delta dy to
offset, then normalize, storing the resulting anchor/offset pair. -/
def scrollContentsBy (st : LV) (dy : Int) : LV :=
  let p := normalizeOffset st st.firstVisibleRow (st.offset + dy)
  { st with firstVisibleRow := p.1, offset := p.2 }

/-- Loop of AbstractListView::visualRect (lines 440-449): walk from the anchor
to the requested row; none when the running top exceeds the window height. Fuel
is (row - firstVisibleRow).toNat, the exact iteration count of the guard
tmpRow < row; returns the reached top y and that row's height. -/
def visualRectLoop (st : LV) : Nat → Int → Int → Option (Int × Int)
  | 0, y, tmpRow => some (y, st.hfw tmpRow (rowWidth st))
  | n + 1, y, tmpRow =>
      let y2 := y + st.hfw tmpRow (rowWidth st) + st.spacing
      if y2 > st.vh then none
      else visualRectLoop st n y2 (tmpRow + 1)

/-- AbstractListView::visualRect (lines 426-455): empty rectangle for rows
before the anchor, otherwise the walked row rectangle clipped to the viewport. -/
def visualRect (st : LV) (row : Int) : QRect :=
  if row ≥ st.firstVisibleRow then
    match visualRectLoop st (row - st.firstVisibleRow).toNat st.offset st.firstVisibleRow with
    | none => QRect.null
    | some (y, ht) =>
        (viewportRect st).intersected ⟨0 + st.spacing, y, rowWidth st, ht⟩
  else QRect.null

/-- Scroll hints of AbstractListViewBase (lines 200-209). -/
inductive ScrollHint where
  | EnsureVisible
  | PositionAtTop
  | PositionAtBottom
  | PositionAtCenter

/-- AbstractListView::scrollTo (lines 343-416). Modelled from the spec for the
part outside the core sources: the scrollable surface (AbstractScrollArea, whose
implementation is not among the repository's core source files) applies the
requested delta to the shown area and reports it back as the realized pan delta
dy consumed by scrollContentsBy, which re-runs the offset normalizer; the spec
states the planner returns the pixel amount the surface must move by and that
applying it and re-normalizing settles the state. Each hint passes its expected
offset from the source: -1 for EnsureVisible and PositionAtTop,
windowHeight - height(row) - spacing - 1 for PositionAtBottom, and
windowHeight / 2 - height(row) / 2 (C++ truncating division) for
PositionAtCenter. Out-of-range rows fall through with no effect. -/
def scrollTo (st : LV) (row : Int) (hint : ScrollHint) : LV :=
  if 0 ≤ row ∧ row < st.count then
    match hint with
    | ScrollHint.EnsureVisible =>
        if ¬ (visualRect st row).isNull then st
        else scrollContentsBy st (calculateScroll st row (-1))
    | ScrollHint.PositionAtTop =>
        scrollContentsBy st (calculateScroll st row (-1))
    | ScrollHint.PositionAtBottom =>
        scrollContentsBy st
          (calculateScroll st row
            (st.vh - st.hfw row (rowWidth st) - st.spacing - 1))
    | ScrollHint.PositionAtCenter =>
        scrollContentsBy st
          (calculateScroll st row
            (Int.tdiv st.vh 2 - Int.tdiv (st.hfw row (rowWidth st)) 2))
  else st

/-- Loop of AbstractListView::rowAt (lines 315-333): directional walk from the
anchor. Each iteration either returns or moves one row toward the point, so the
fuel (passed as count + 1 by rowAt) covers every terminating source execution
considered here; exhaustion returns -1. The y step uses the height of the row
the iteration started on, as the source does. -/
def rowAtLoop (st : LV) (px py : Int) : Nat → Int → Int → Int
  | 0, _, _ => -1
  | f + 1, row, y =>
    if 0 ≤ row ∧ row < st.count then
      let ht := st.hfw row (rowWidth st)
      let r2 : QRect := ⟨st.spacing, y, rowWidth st, ht⟩
      if r2.contains px py then row
      else if |y| + ht + st.spacing > |py| then -1
      else if py < y then rowAtLoop st px py f (row - 1) (y - (ht + st.spacing))
      else rowAtLoop st px py f (row + 1) (y + ht + st.spacing)
    else -1

/-- AbstractListView::rowAt (lines 302-336): -1 when the point is outside the
horizontal content band, else the directional walk from the anchor starting at
y = offset. The width is taken from the viewport rectangle, as everywhere else
in the class. -/
def rowAt (st : LV) (px py : Int) : Int :=
  let x := st.spacing
  if px < x ∨ px > x + rowWidth st then -1
  else rowAtLoop st px py (st.count.toNat + 1) st.firstVisibleRow st.offset

/-- Loop of AbstractListViewPrivate::calcScrolledAreaSize (line 781-782):
accumulate height(i) + spacing for i over n rows starting at index i0. -/
def calcAreaLoop (st : LV) : Int → Nat → Int
  | _, 0 => 0
  | i0, n + 1 => st.hfw i0 (rowWidth st) + st.spacing + calcAreaLoop st (i0 + 1) n

/-- AbstractListViewPrivate::calcScrolledAreaSize (lines 772-785): the scrolled
area size as (width, spacing + sum of row extents). -/
def calcScrolledAreaSize (st : LV) : Int × Int :=
  (st.vw, st.spacing + calcAreaLoop st 0 st.count.toNat)

/-- AbstractListView::rowsRemoved (lines 513-538), anchor/offset part: newCount
is the model's row count after the removal (the handler reads rowCount() after
the rows are gone). -/
def rowsRemovedState (fvr offset first last newCount : Int) : Int × Int :=
  if first ≤ fvr ∧ fvr ≤ last then
    if newCount ≠ 0 then
      (if first - 1 ≥ 0 then first - 1 else last + 1, 0)
    else (-1, 0)
  else (fvr, offset)

/-- AbstractListView::rowsInserted (lines 501-511), anchor/offset part. -/
def rowsInsertedState (fvr offset : Int) : Int × Int :=
  (if fvr = -1 then 0 else fvr, offset)

/-- AbstractListView::modelReset (lines 489-499), anchor/offset part. -/
def modelResetState : Int × Int := (-1, 0)

/-- AbstractListView::rowsMoved (lines 540-555), anchor/offset part. -/
def rowsMovedState (fvr offset sourceStart sourceEnd destinationRow : Int) : Int × Int :=
  if (sourceStart ≤ fvr ∧ fvr ≤ sourceEnd) ∨
     (destinationRow ≤ fvr ∧ fvr ≤ destinationRow + sourceEnd - sourceStart) then
    (fvr, 0)
  else (fvr, offset)

/-- AbstractListView::dataChanged (lines 482-487), anchor/offset part: the
handler only triggers a repaint and never touches the anchor or offset. -/
def dataChangedState (fvr offset : Int) : Int × Int := (fvr, offset)

/-- Reference loop written from the claim's words for the positive-offset case:
while offset > 0 and anchorRow > 0, decrement anchorRow and subtract the NEW
anchor row's height (the height after the decrement) plus spacing from offset;
if anchorRow reaches 0 before offset reaches ≤ 0, offset is clamped to 0. -/
def specUpLoop (st : LV) : Nat → Int → Int × Int
  | 0, offset => (0, if offset > 0 then 0 else offset)
  | r + 1, offset =>
      if offset > 0 then
        specUpLoop st r (offset - (st.hfw (r : Int) (rowWidth st) + st.spacing))
      else ((r : Int) + 1, offset)

/-- The loop the code performs for a positive offset, stated independently of
normalizeOffset over an Int row with explicit fuel: while offset > 0, subtract
the CURRENT anchor row's height plus spacing from offset and then decrement the
row; when the row is 0 with offset still positive, set offset to 0 and stop. -/
def codeUpLoop (st : LV) : Nat → Int → Int → Int × Int
  | 0, row, offset => (row, offset)
  | f + 1, row, offset =>
      if 0 < offset then
        if row = 0 then (0, 0)
        else codeUpLoop st f (row - 1) (offset - (st.hfw row (rowWidth st) + st.spacing))
      else (row, offset)

/-- Anchor validity invariant of the specification: the anchor is -1 exactly
when the collection is empty, and otherwise a valid index in [0, count). -/
def anchorInv (fvr cnt : Int) : Prop :=
  (fvr = -1 ↔ cnt = 0) ∧ (fvr ≠ -1 → 0 ≤ fvr ∧ fvr < cnt)

/-- The normalized-state invariants of the specification's data model, made
precise by what the normalizer establishes: the anchor is -1 (with offset 0)
exactly on an empty collection; otherwise the anchor is a valid index, the
offset is ≤ 0, the anchor is at most one row-extent above the window top when
more content exists below, and the offset respects the max-offset clamp when
none does. -/
def satisfiesInvariants (st : LV) : Prop :=
  (st.firstVisibleRow = -1 ↔ st.count = 0) ∧
  (st.firstVisibleRow = -1 → st.offset = 0) ∧
  (st.firstVisibleRow ≠ -1 →
    0 ≤ st.firstVisibleRow ∧ st.firstVisibleRow < st.count ∧ st.offset ≤ 0 ∧
    (canScrollDown st st.firstVisibleRow = true →
      -(st.hfw st.firstVisibleRow (rowWidth st) + st.spacing) ≤ st.offset) ∧
    (canScrollDown st st.firstVisibleRow = false → maxOffset st ≤ st.offset))

/-- Point strictly inside a rectangle: strictly between the left and right
edges and strictly between the top and bottom edges (Qt closed coordinates). -/
def strictlyInside (px py : Int) (r : QRect) : Prop :=
  r.x < px ∧ px < r.x + r.w - 1 ∧ r.y < py ∧ py < r.y + r.h - 1

/-- Modelled from the spec: the backing row collection (the ListModel, whose
implementation is not among the repository's core source files). A
removed(first, last) notification deletes the rows at indices first..last,
inclusive, renumbering the rows that followed. -/
def removeRange {α : Type} (l : List α) (first last : Int) : List α :=
  List.take first.toNat l ++ List.drop (last + 1).toNat l

/-- Concrete instance: two rows of heights 10 and 20, no spacing. -/
def exC1 : LV :=
  { count := 2
    hfw := fun row _ => if row = 0 then 10 else 20
    spacing := 0
    vw := 100
    vh := 100
    firstVisibleRow := 1
    offset := -1 }

/-- Concrete instance: rows of heights 10, 10, 10, 100 in a 25-pixel-tall
window, no spacing. -/
def exC2 : LV :=
  { count := 4
    hfw := fun row _ => if row = 3 then 100 else 10
    spacing := 0
    vw := 100
    vh := 25
    firstVisibleRow := 0
    offset := 0 }

/-- Concrete instance: rows of heights 10 and 100 in a 25-pixel-tall window,
no spacing; no whole row lies beyond the window, so canScrollDown is false. -/
def exC2b : LV :=
  { count := 2
    hfw := fun row _ => if row = 0 then 10 else 100
    spacing := 0
    vw := 100
    vh := 25
    firstVisibleRow := 0
    offset := 0 }

/-- Concrete instance: ten rows of height 10 with spacing 5 in a 100 x 40
window, anchored at the top. -/
def exC4 : LV :=
  { count := 10
    hfw := fun _ _ => 10
    spacing := 5
    vw := 100
    vh := 40
    firstVisibleRow := 0
    offset := 0 }

/-- Concrete instance: three rows of height 10 in a 12-pixel-tall window with
no spacing, anchor row 0 scrolled 5 pixels above the window top; this state
satisfies the normalized-state invariants. -/
def exC7 : LV :=
  { count := 3
    hfw := fun _ _ => 10
    spacing := 0
    vw := 100
    vh := 12
    firstVisibleRow := 0
    offset := -5 }

/-- Concrete instance: three rows of height 10 in a 15-pixel-tall window with
no spacing, anchor row 0 scrolled 5 pixels above the window top. -/
def exC8 : LV :=
  { count := 3
    hfw := fun _ _ => 10
    spacing := 0
    vw := 100
    vh := 15
    firstVisibleRow := 0
    offset := -5 }

/-- Concrete instance: a single row of height 10 in a 100 x 100 window. -/
def exC9 : LV :=
  { count := 1
    hfw := fun _ _ => 10
    spacing := 0
    vw := 100
    vh := 100
    firstVisibleRow := 0
    offset := 0 }

/-- Helper: the length of (List.take first.toNat l) when first fits. -/
lemma take_length_of_le (l : List Int) (first : Int) (h : first ≤ (l.length : Int)) :
    (List.take first.toNat l).length = first.toNat := by
  rw [List.length_take]
  omega

/-- Helper: normUpLoop agrees with codeUpLoop on a Nat row once the fuel covers
the row index. -/
lemma normUpLoop_eq_codeUpLoop (st : LV) :
    ∀ (n : Nat) (fuel : Nat) (offset : Int), n + 1 ≤ fuel →
      normUpLoop st n offset = codeUpLoop st fuel (n : Int) offset := by
  intro n
  induction n with
  | zero =>
      intro fuel offset hf
      cases fuel with
      | zero => omega
      | succ f =>
          by_cases h : offset > 0
          · simp [normUpLoop, codeUpLoop, h]
          · simp [normUpLoop, codeUpLoop, h]
  | succ m ih =>
      intro fuel offset hf
      cases fuel with
      | zero => omega
      | succ f =>
          by_cases h : offset > 0
          · have hne : ((m : Int) + 1) ≠ 0 := by omega
            have hcast : ((m + 1 : Nat) : Int) = (m : Int) + 1 := by push_cast; ring
            rw [hcast]
            simp only [normUpLoop, codeUpLoop, if_pos h, if_neg hne]
            rw [show (m : Int) + 1 - 1 = (m : Int) by ring]
            exact ih f _ (by omega)
          · simp [normUpLoop, codeUpLoop, h]

/-- Helper: the negative-offset loop is the identity when the offset is already
within one extent of the current row. -/
lemma normDownLoop_stay (st : LV) (f : Nat) (r o : Int)
    (h : ¬ (|o| > st.hfw r (rowWidth st) + st.spacing)) :
    normDownLoop st f r o = (r, o) := by
  cases f <;> simp only [normDownLoop, if_neg h]

/-- Helper: calcAreaLoop is the sum of height + spacing over the scanned rows. -/
lemma calcAreaLoop_eq_sum (st : LV) :
    ∀ (n : Nat) (i0 : Int),
      calcAreaLoop st i0 n =
        ∑ k ∈ Finset.range n, (st.hfw (i0 + (k : Int)) (rowWidth st) + st.spacing) := by
  intro n
  induction n with
  | zero => intro i0; simp [calcAreaLoop]
  | succ m ih =>
      intro i0
      simp only [calcAreaLoop]
      rw [ih (i0 + 1), Finset.sum_range_succ']
      push_cast
      simp only [add_zero]
      rw [Finset.sum_congr rfl (fun k hk => by
        rw [show i0 + 1 + (k : Int) = i0 + ((k : Int) + 1) from by ring])]
      ring

/-- Helper: walkSum is non-negative when every row extent is non-negative. -/
lemma walkSum_nonneg (st : LV)
    (hpos : ∀ j : Int, 0 ≤ st.hfw j (rowWidth st) + st.spacing) :
    ∀ (n : Nat) (lo : Int), 0 ≤ walkSum st lo n := by
  intro n
  induction n with
  | zero => intro lo; simp [walkSum]
  | succ m ih =>
      intro lo
      have h1 := hpos lo
      have h2 := ih (lo + 1)
      simp only [walkSum]
      omega

/-- Helper: from offset -1 - walkSum(row, n), the negative-offset walk advances
exactly n rows and settles at offset -1, provided the fuel covers n and every
row extent is at least 1. -/
lemma normDownLoop_walk (st : LV)
    (hpos : ∀ j : Int, 1 ≤ st.hfw j (rowWidth st) + st.spacing) :
    ∀ (n fuel : Nat) (row : Int), n ≤ fuel →
      normDownLoop st fuel row (-1 - walkSum st row n) = (row + n, -1) := by
  intro n
  induction n with
  | zero =>
      intro fuel row _
      have h1 := hpos row
      have habs : ¬ (|(-1 : Int) - walkSum st row 0| >
          st.hfw row (rowWidth st) + st.spacing) := by
        simp only [walkSum]
        rw [show (-1 : Int) - 0 = -1 from by ring, abs_of_nonpos (by omega)]
        omega
      rw [normDownLoop_stay st fuel row _ habs]
      simp [walkSum]
  | succ m ih =>
      intro fuel row h
      cases fuel with
      | zero => omega
      | succ f =>
          have hW := walkSum_nonneg st (fun j => by have := hpos j; omega) m (row + 1)
          have h1 := hpos row
          have habs : |(-1 : Int) - (st.hfw row (rowWidth st) + st.spacing +
              walkSum st (row + 1) m)| > st.hfw row (rowWidth st) + st.spacing := by
            rw [abs_of_nonpos (by omega)]
            omega
          simp only [walkSum, normDownLoop]
          rw [if_pos habs,
            show -1 - (st.hfw row (rowWidth st) + st.spacing + walkSum st (row + 1) m)
                + st.hfw row (rowWidth st) + st.spacing
              = -1 - walkSum st (row + 1) m from by ring,
            ih f (row + 1) (by omega)]
          congr 1
          push_cast
          ring

/-- Helper: the pan delta planned by calculateScroll(row, -1) for a target at
or after the anchor lands the raw offset at -1 minus the walked extent. -/
lemma scroll_delta_top (st : LV) (R : Int) (h1 : st.firstVisibleRow ≤ R) :
    st.offset + calculateScroll st R (-1) =
      -1 - walkSum st st.firstVisibleRow (R - st.firstVisibleRow).toNat := by
  unfold calculateScroll
  rw [if_neg (by omega : ¬ st.firstVisibleRow > R)]
  by_cases hlt : st.firstVisibleRow < R
  · rw [if_pos hlt]
    ring
  · rw [if_neg hlt, show R = st.firstVisibleRow from by omega, sub_self, Int.toNat_zero]
    simp only [walkSum]
    ring

/-- Helper: scrollTo(R, PositionAtTop) settles the state at anchor R with
offset -1 when R is at or after a valid anchor with more content below. -/
lemma scrollTo_top_state (st : LV) (R : Int)
    (h0 : 0 ≤ st.firstVisibleRow) (h1 : st.firstVisibleRow ≤ R) (h2 : R < st.count)
    (hcsd : canScrollDown st st.firstVisibleRow = true)
    (hpos : ∀ j : Int, 1 ≤ st.hfw j (rowWidth st) + st.spacing) :
    scrollTo st R ScrollHint.PositionAtTop =
      { st with firstVisibleRow := R, offset := -1 } := by
  unfold scrollTo
  rw [if_pos ⟨by omega, h2⟩]
  show scrollContentsBy st (calculateScroll st R (-1)) = _
  unfold scrollContentsBy
  rw [scroll_delta_top st R h1]
  have hW := walkSum_nonneg st (fun j => by have := hpos j; omega)
    (R - st.firstVisibleRow).toNat st.firstVisibleRow
  unfold normalizeOffset
  rw [if_neg (by omega :
      ¬ -1 - walkSum st st.firstVisibleRow (R - st.firstVisibleRow).toNat > 0),
    if_pos (by omega :
      (-1 : Int) - walkSum st st.firstVisibleRow (R - st.firstVisibleRow).toNat < 0),
    if_pos hcsd,
    normDownLoop_walk st hpos (R - st.firstVisibleRow).toNat _ _ (by omega)]
  show ({ st with
    firstVisibleRow := st.firstVisibleRow + ((R - st.firstVisibleRow).toNat : Int)
    offset := -1 } : LV) = _
  rw [show st.firstVisibleRow + ((R - st.firstVisibleRow).toNat : Int) = R from by omega]

/-- Helper: the row rectangle placed at top -1 clipped to the viewport starts
exactly at the window top and is non-null. -/
lemma c4_intersect (vw vh s hr : Int) (hs : 0 ≤ s) (hvh : 1 ≤ vh)
    (hvw : 2 * s + 1 ≤ vw) (hhr : 2 ≤ hr) :
    ((⟨0, 0, vw, vh⟩ : QRect).intersected ⟨0 + s, -1, vw - s * 2, hr⟩).y = 0 ∧
    ((⟨0, 0, vw, vh⟩ : QRect).intersected ⟨0 + s, -1, vw - s * 2, hr⟩).isNull = false := by
  have hA : ((⟨0, 0, vw, vh⟩ : QRect).isEmpty ||
      (⟨0 + s, -1, vw - s * 2, hr⟩ : QRect).isEmpty) = false := by
    simp only [QRect.isEmpty, Bool.or_eq_false_iff, decide_eq_false_iff_not]
    omega
  have hcond : (max (0 : Int) (0 + s) ≤ min (0 + vw - 1) (0 + s + (vw - s * 2) - 1)) ∧
      (max (0 : Int) (-1) ≤ min (0 + vh - 1) (-1 + hr - 1)) := by
    constructor <;> omega
  simp only [QRect.intersected]
  rw [hA, if_neg (by simp : ¬ false = true), if_pos hcond]
  constructor
  · show max (0 : Int) (-1) = 0
    omega
  · show ((⟨max (0 : Int) (0 + s), max (0 : Int) (-1),
      min (0 + vw - 1) (0 + s + (vw - s * 2) - 1) - max (0 : Int) (0 + s) + 1,
      min (0 + vh - 1) (-1 + hr - 1) - max (0 : Int) (-1) + 1⟩ : QRect)).isNull = false
    simp only [QRect.isNull, Bool.and_eq_false_iff]
    left
    simp only [beq_eq_false_iff_ne, ne_eq]
    omega

/-- Helper: visualRect of the anchor row itself is its raw rectangle at
y = offset clipped to the viewport. -/
lemma visualRect_anchor (st : LV) :
    visualRect st st.firstVisibleRow =
      (viewportRect st).intersected
        ⟨0 + st.spacing, st.offset, rowWidth st,
          st.hfw st.firstVisibleRow (rowWidth st)⟩ := by
  unfold visualRect
  rw [if_pos (le_refl _), sub_self, Int.toNat_zero]
  rfl

/-- C4, counterexample: ten rows of height 10, spacing 5, 100 x 40 window,
anchored at the top. After scrollTo(1, PositionAtTop), visibleRect(1) has top 0
(the window top: the planner targets raw offset -1 and the rectangle is clipped
upward), NOT window top + spacing = 5 as the claim states — and no max-offset
clamp is involved. -/
theorem c4_counterexample :
    (visualRect (scrollTo exC4 1 ScrollHint.PositionAtTop) 1).y = 0 ∧
    exC4.spacing = 5 ∧
    (visualRect (scrollTo exC4 1 ScrollHint.PositionAtTop) 1).y ≠ 0 + exC4.spacing := by
  refine ⟨by decide, rfl, by decide⟩

/-- C4, amended: for every valid target R at or after a valid anchor with more
content below (canScrollDown) and positive row extents, scrollTo(R,
PositionAtTop) settles the state at (R, -1) and the top edge of visibleRect(R)
equals the window top (not window top + spacing): the row is planned at raw
offset -1 and clipped by the viewport intersection. -/
theorem c4_amended (st : LV) (R : Int)
    (h0 : 0 ≤ st.firstVisibleRow) (h1 : st.firstVisibleRow ≤ R) (h2 : R < st.count)
    (hcsd : canScrollDown st st.firstVisibleRow = true)
    (hpos : ∀ j : Int, 1 ≤ st.hfw j (rowWidth st) + st.spacing)
    (hhR : 2 ≤ st.hfw R (rowWidth st))
    (hs : 0 ≤ st.spacing) (hvh : 1 ≤ st.vh) (hvw : 2 * st.spacing + 1 ≤ st.vw) :
    (scrollTo st R ScrollHint.PositionAtTop).firstVisibleRow = R ∧
    (scrollTo st R ScrollHint.PositionAtTop).offset = -1 ∧
    (visualRect (scrollTo st R ScrollHint.PositionAtTop) R).y = 0 ∧
    (visualRect (scrollTo st R ScrollHint.PositionAtTop) R).isNull = false := by
  rw [scrollTo_top_state st R h0 h1 h2 hcsd hpos]
  refine ⟨rfl, rfl, ?_, ?_⟩
  · show (visualRect { st with firstVisibleRow := R, offset := -1 }
      (LV.firstVisibleRow { st with firstVisibleRow := R, offset := -1 })).y = 0
    rw [visualRect_anchor]
    exact (c4_intersect st.vw st.vh st.spacing (st.hfw R (rowWidth st)) hs hvh hvw hhR).1
  · show (visualRect { st with firstVisibleRow := R, offset := -1 }
      (LV.firstVisibleRow { st with firstVisibleRow := R, offset := -1 })).isNull = false
    rw [visualRect_anchor]
    exact (c4_intersect st.vw st.vh st.spacing (st.hfw R (rowWidth st)) hs hvh hvw hhR).2

/-- C4, witness: the amended statement applied at the concrete ten-row state,
targeting row 1. -/
theorem c4_amended_witness :
    (scrollTo exC4 1 ScrollHint.PositionAtTop).firstVisibleRow = 1 ∧
    (scrollTo exC4 1 ScrollHint.PositionAtTop).offset = -1 ∧
    (visualRect (scrollTo exC4 1 ScrollHint.PositionAtTop) 1).y = 0 ∧
    (visualRect (scrollTo exC4 1 ScrollHint.PositionAtTop) 1).isNull = false :=
  c4_amended exC4 1 (by decide) (by decide) (by decide) (by decide)
    (fun j => by show (1 : Int) ≤ 10 + 5; norm_num)
    (by decide) (by decide) (by decide) (by decide)

/-- C1, counterexample: with rows of heights 10 and 20 and anchor row 1, a pan
that leaves offset 5 makes normalizeOffset subtract the OLD anchor row's extent
(20), landing at (0, -15), while the claim's reference loop (decrement first,
subtract the NEW anchor row's height 10) lands at (0, -5). -/
theorem c1_counterexample :
    normalizeOffset exC1 1 5 = (0, -15) ∧ specUpLoop exC1 1 5 = (0, -5) ∧
    normalizeOffset exC1 1 5 ≠ specUpLoop exC1 1 5 := by
  refine ⟨by decide, by decide, by decide⟩

/-- C1, amended: for every state with a valid anchor and positive offset,
normalizeOffset equals the loop that, while offset > 0, subtracts the CURRENT
anchor row's height plus spacing and then decrements the anchor, setting offset
to 0 when the anchor is 0 with offset still positive. -/
theorem c1_amended (st : LV) (row offset : Int) (hrow : 0 < row) (hoff : 0 < offset) :
    normalizeOffset st row offset = codeUpLoop st (row.toNat + 1) row offset := by
  have h1 : normalizeOffset st row offset = normUpLoop st row.toNat offset := by
    unfold normalizeOffset
    rw [if_pos hoff, if_pos hrow]
  rw [h1, normUpLoop_eq_codeUpLoop st row.toNat (row.toNat + 1) offset (by omega),
    Int.toNat_of_nonneg (le_of_lt hrow)]

/-- C1, witness: the amended loop applied at the concrete counterexample
state, where both sides evaluate to (0, -15). -/
theorem c1_amended_witness :
    normalizeOffset exC1 1 5 = codeUpLoop exC1 ((1 : Int).toNat + 1) 1 5 ∧
    normalizeOffset exC1 1 5 = (0, -15) :=
  ⟨c1_amended exC1 1 5 (by decide) (by decide), by decide⟩

/-- C2, counterexample: with rows 10, 10, 10, 100 in a 25-pixel window, a pan
to offset -200 makes the forward walk reach the last row and set offset to 0,
not to the maximum offset -76 the claim requires. -/
theorem c2_counterexample :
    normalizeOffset exC2 0 (-200) = (3, 0) ∧ maxOffset exC2 = -76 ∧
    (normalizeOffset exC2 0 (-200)).2 ≠ maxOffset exC2 := by
  refine ⟨by decide, by decide, by decide⟩

/-- C2, amended: for a negative offset the max-offset clamp applies only when
canScrollDown is false at the ORIGINAL anchor row, in which case offset is
raised to maxOffset when below it; when the forward walk itself runs out of
rows (fuel 0, i.e. at the last row) with the absolute offset still exceeding
the row extent, offset is set to 0 instead. -/
theorem c2_amended (st : LV) (row offset : Int) (hoff : offset < 0) :
    (canScrollDown st row = false →
      normalizeOffset st row offset =
        (row, if offset < maxOffset st then maxOffset st else offset)) ∧
    (∀ r o : Int, |o| > st.hfw r (rowWidth st) + st.spacing →
      normDownLoop st 0 r o = (r, 0)) := by
  constructor
  · intro hcsd
    unfold normalizeOffset
    rw [if_neg (by omega : ¬ offset > 0), if_pos hoff]
    simp [hcsd]
  · intro r o h
    simp only [normDownLoop, if_pos h]

/-- C2, witness: rows 10 and 100 in a 25-pixel window have canScrollDown false
at row 0 and maxOffset -76, so offset -100 is clamped to -76; and the fuel-0
walk at an oversized offset yields offset 0. -/
theorem c2_amended_witness :
    normalizeOffset exC2b 0 (-100) = (0, -76) ∧ normDownLoop exC2b 0 5 (-200) = (5, 0) := by
  have h := c2_amended exC2b 0 (-100) (by decide)
  exact ⟨(h.1 (by decide)).trans (by decide), h.2 5 (-200) (by decide)⟩

/-- C3, counterexample: from the valid state anchor 2 of 5 rows, removing rows
0..3 (4 rows, leaving 1) re-anchors to last + 1 = 4 without clamping, an
out-of-range index for the one-row collection, violating the claimed
invariant. -/
theorem c3_counterexample :
    anchorInv 2 5 ∧ rowsRemovedState 2 (-3) 0 3 1 = (4, 0) ∧
    ¬ anchorInv (rowsRemovedState 2 (-3) 0 3 1).1 1 := by
  refine ⟨by unfold anchorInv; decide, by decide, by unfold anchorInv; decide⟩

/-- C3, amended: modelReset yields (-1, 0); inserted, moved and dataChanged
preserve the anchor-validity invariant; removed preserves it when the anchor is
below the removed range, or inside it with first > 0, or when the collection
empties — but when the anchor is inside the range with first = 0, or above the
range, the resulting index (last + 1, resp. the unchanged one) can be out of
range. -/
theorem c3_amended (fvr offset cnt : Int) (hinv : anchorInv fvr cnt) :
    modelResetState = (-1, 0) ∧
    (∀ first last newCount : Int, 0 ≤ first → first ≤ last →
      newCount = cnt + (last - first + 1) →
      anchorInv (rowsInsertedState fvr offset).1 newCount) ∧
    (∀ ss se dest : Int, anchorInv (rowsMovedState fvr offset ss se dest).1 cnt) ∧
    anchorInv (dataChangedState fvr offset).1 cnt ∧
    (∀ first last newCount : Int, 0 ≤ first → first ≤ last → last < cnt →
      newCount = cnt - (last - first + 1) →
      (fvr < first ∨ (first ≤ fvr ∧ fvr ≤ last ∧ (0 < first ∨ newCount = 0))) →
      anchorInv (rowsRemovedState fvr offset first last newCount).1 newCount) := by
  obtain ⟨hiff, hrange⟩ := hinv
  have hA : fvr = -1 → cnt = 0 := hiff.mp
  have hB : cnt = 0 → fvr = -1 := hiff.mpr
  refine ⟨rfl, ?_, ?_, ⟨hiff, hrange⟩, ?_⟩
  · intro first last newCount h1 h2 h3
    show anchorInv (if fvr = -1 then 0 else fvr) newCount
    unfold anchorInv
    by_cases h : fvr = -1
    · have := hA h
      simp only [if_pos h]
      omega
    · have := hrange h
      simp only [if_neg h]
      omega
  · intro ss se dest
    have h : (rowsMovedState fvr offset ss se dest).1 = fvr := by
      unfold rowsMovedState
      split <;> rfl
    rw [h]
    exact ⟨hiff, hrange⟩
  · intro first last newCount h1 h2 h3 h4 h5
    rcases h5 with h5 | ⟨h5a, h5b, h5c⟩
    · have hx : rowsRemovedState fvr offset first last newCount = (fvr, offset) := by
        unfold rowsRemovedState
        rw [if_neg (by omega : ¬ (first ≤ fvr ∧ fvr ≤ last))]
      rw [hx]
      show anchorInv fvr newCount
      have hne : fvr ≠ -1 := by
        intro h
        have := hA h
        omega
      have := hrange hne
      unfold anchorInv
      omega
    · rcases h5c with h5c | h5c
      · have hx : rowsRemovedState fvr offset first last newCount = (first - 1, 0) := by
          unfold rowsRemovedState
          rw [if_pos ⟨h5a, h5b⟩, if_pos (by omega : newCount ≠ 0),
            if_pos (by omega : first - 1 ≥ 0)]
        rw [hx]
        show anchorInv (first - 1) newCount
        unfold anchorInv
        omega
      · have hx : rowsRemovedState fvr offset first last newCount = (-1, 0) := by
          unfold rowsRemovedState
          rw [if_pos ⟨h5a, h5b⟩, if_neg (by omega : ¬ newCount ≠ 0)]
        rw [hx]
        show anchorInv (-1) newCount
        unfold anchorInv
        omega

/-- C3, witness: the preserved paths applied at the valid state anchor 1 of 3
rows: an insertion of 3 rows, a move, a data change, and a removal strictly
above the anchor. -/
theorem c3_amended_witness :
    modelResetState = (-1, 0) ∧
    anchorInv (rowsInsertedState 1 (-2)).1 6 ∧
    anchorInv (rowsMovedState 1 (-2) 0 1 2).1 3 ∧
    anchorInv (dataChangedState 1 (-2)).1 3 ∧
    anchorInv (rowsRemovedState 1 (-2) 2 2 2).1 2 := by
  have h := c3_amended 1 (-2) 3 (by unfold anchorInv; decide)
  exact ⟨h.1, h.2.1 0 2 6 (by decide) (by decide) (by decide), h.2.2.1 0 1 2,
    h.2.2.2.1, h.2.2.2.2 2 2 2 (by decide) (by decide) (by decide) (by decide)
      (Or.inl (by decide))⟩

/-- C5, counterexample: removing rows 0..4 of 6 (anchor 1 inside, one row
remains) re-anchors to last + 1 = 5, which is NOT clamped to a valid row of the
one-row collection as the claim states. -/
theorem c5_counterexample :
    rowsRemovedState 1 0 0 4 1 = (5, 0) ∧ ¬ ((rowsRemovedState 1 0 0 4 1).1 < 1) := by
  refine ⟨by decide, by decide⟩

/-- C5, amended: when the anchor is inside the removed range, the handler
re-anchors to first - 1 when first ≥ 1 and to last + 1 otherwise — WITHOUT
clamping, so the result may exceed the last valid index — with offset 0; when
the collection became empty it sets (-1, 0). -/
theorem c5_amended (fvr offset first last newCount : Int)
    (h1 : first ≤ fvr) (h2 : fvr ≤ last) :
    (newCount ≠ 0 → rowsRemovedState fvr offset first last newCount =
      (if 1 ≤ first then first - 1 else last + 1, 0)) ∧
    (newCount = 0 → rowsRemovedState fvr offset first last newCount = (-1, 0)) := by
  constructor
  · intro h3
    unfold rowsRemovedState
    rw [if_pos ⟨h1, h2⟩, if_pos h3]
    by_cases h : (1 : Int) ≤ first
    · rw [if_pos (by omega : first - 1 ≥ 0), if_pos h]
    · rw [if_neg (by omega : ¬ first - 1 ≥ 0), if_neg h]
  · intro h3
    unfold rowsRemovedState
    rw [if_pos ⟨h1, h2⟩, if_neg (by omega : ¬ newCount ≠ 0)]

/-- C5, witness: removal with first = 1 > 0 re-anchors to 0, and a removal
emptying the collection re-anchors to -1, both with offset 0. -/
theorem c5_amended_witness :
    rowsRemovedState 2 7 1 3 2 = (0, 0) ∧ rowsRemovedState 2 7 0 4 0 = (-1, 0) := by
  have ha := c5_amended 2 7 1 3 2 (by decide) (by decide)
  have hb := c5_amended 2 7 0 4 0 (by decide) (by decide)
  exact ⟨(ha.1 (by decide)).trans (by decide), hb.2 rfl⟩

/-- C6: the scrolled-area height computed by calcScrolledAreaSize equals
spacing plus the sum over all rows of (height(i, width) + spacing), for every
state (hence every width and collection); the width component is the viewport
width. -/
theorem c6_total_extent (st : LV) :
    calcScrolledAreaSize st =
      (st.vw, st.spacing +
        ∑ i ∈ Finset.range st.count.toNat,
          (st.hfw (i : Int) (rowWidth st) + st.spacing)) := by
  unfold calcScrolledAreaSize
  rw [calcAreaLoop_eq_sum]
  rw [Finset.sum_congr rfl (fun k _ => by rw [zero_add])]

/-- C8: normalizing with a pan delta of 0 is the identity on every state that
satisfies the normalized-state invariants. -/
theorem c8_idempotent (st : LV) (hinv : satisfiesInvariants st) :
    scrollContentsBy st 0 = st := by
  obtain ⟨hiff, hempty, hvalid⟩ := hinv
  have hkey : normalizeOffset st st.firstVisibleRow (st.offset + 0) =
      (st.firstVisibleRow, st.offset) := by
    rw [add_zero]
    rcases lt_trichotomy st.offset 0 with ho | ho | ho
    · have hne : st.firstVisibleRow ≠ -1 := by
        intro h
        have := hempty h
        omega
      obtain ⟨hf0, hfc, hle, hcsdT, hcsdF⟩ := hvalid hne
      unfold normalizeOffset
      rw [if_neg (by omega : ¬ st.offset > 0), if_pos ho]
      cases hb : canScrollDown st st.firstVisibleRow
      · have hmax := hcsdF hb
        rw [if_neg (by simp : ¬ false = true)]
        show (st.firstVisibleRow,
          if st.offset < maxOffset st then maxOffset st else st.offset) =
            (st.firstVisibleRow, st.offset)
        rw [if_neg (by omega : ¬ st.offset < maxOffset st)]
      · have hbound := hcsdT hb
        rw [if_pos rfl]
        exact normDownLoop_stay st _ _ _ (by rw [abs_of_nonpos (le_of_lt ho)]; omega)
    · unfold normalizeOffset
      rw [ho]
      norm_num
    · exfalso
      rcases em (st.firstVisibleRow = -1) with h | h
      · have := hempty h
        omega
      · have := (hvalid h).2.2.1
        omega
  simp only [scrollContentsBy]
  rw [hkey]

/-- C8, witness: the invariant-satisfying state with three 10-pixel rows in a
15-pixel window, anchor 0 at offset -5, is unchanged by a zero pan. -/
theorem c8_idempotent_witness :
    satisfiesInvariants exC8 ∧ scrollContentsBy exC8 0 = exC8 :=
  ⟨by unfold satisfiesInvariants; decide, c8_idempotent exC8 (by unfold satisfiesInvariants; decide)⟩

/-- C9, counterexample: with a single 10-pixel row, visualRect of the
out-of-range row 1 walks past the end and returns the NON-empty rectangle
(0, 10, 100, 10) (its height taken from an out-of-range metrics query), not the
empty rectangle the claim requires. -/
theorem c9_counterexample :
    visualRect exC9 1 = ⟨0, 10, 100, 10⟩ ∧ visualRect exC9 1 ≠ QRect.null ∧
    exC9.count = 1 := by
  refine ⟨by decide, by decide, rfl⟩

/-- C9, amended: scrollTo with an out-of-range row (any hint) is a no-op on the
state, and visualRect returns the empty rectangle for every row below the
anchor (in particular every negative row when the anchor is valid); but for
rows at or past count the visualRect walk is not guarded. -/
theorem c9_amended (st : LV) (row : Int) (hint : ScrollHint) :
    (¬ (0 ≤ row ∧ row < st.count) → scrollTo st row hint = st) ∧
    (row < st.firstVisibleRow → visualRect st row = QRect.null) := by
  constructor
  · intro h
    unfold scrollTo
    rw [if_neg h]
  · intro h
    unfold visualRect
    rw [if_neg (by omega : ¬ row ≥ st.firstVisibleRow)]

/-- C9, witness: scrollTo row 5 of a 1-row collection is a no-op and
visualRect of row -3 is the empty rectangle. -/
theorem c9_amended_witness :
    scrollTo exC9 5 ScrollHint.PositionAtTop = exC9 ∧ visualRect exC9 (-3) = QRect.null :=
  ⟨(c9_amended exC9 5 ScrollHint.PositionAtTop).1 (by decide),
   (c9_amended exC9 (-3) ScrollHint.PositionAtTop).2 (by decide)⟩

/-- C10: a removal whose range does not contain the anchor leaves the anchor
and offset unchanged, and when the removal is entirely above the anchor the
unchanged stored index now denotes the row formerly at index
anchor + (last - first + 1) of the backing collection. -/
theorem c10_removed_outside (fvr offset first last newCount : Int) (l : List Int)
    (hout : fvr < first ∨ last < fvr) :
    rowsRemovedState fvr offset first last newCount = (fvr, offset) ∧
    (0 ≤ first → first ≤ last → last < fvr → first ≤ (l.length : Int) →
      (removeRange l first last)[fvr.toNat]? = l[(fvr + (last - first + 1)).toNat]?) := by
  constructor
  · unfold rowsRemovedState
    rw [if_neg (by omega : ¬ (first ≤ fvr ∧ fvr ≤ last))]
  · intro h1 h2 h3 h4
    unfold removeRange
    rw [List.getElem?_append_right
      (by rw [take_length_of_le l first h4]; omega), List.getElem?_drop]
    congr 1
    rw [take_length_of_le l first h4]
    omega

/-- Helper: the visualRect walk either bails out (none) or reaches the target
with top y plus the accumulated walkSum and that row's height. -/
lemma visualRectLoop_walk (st : LV) :
    ∀ (n : Nat) (y t : Int),
      visualRectLoop st n y t = none ∨
      visualRectLoop st n y t =
        some (y + walkSum st t n, st.hfw (t + (n : Int)) (rowWidth st)) := by
  intro n
  induction n with
  | zero =>
      intro y t
      right
      simp [visualRectLoop, walkSum]
  | succ m ih =>
      intro y t
      simp only [visualRectLoop]
      by_cases h : y + st.hfw t (rowWidth st) + st.spacing > st.vh
      · left
        rw [if_pos h]
      · rw [if_neg h]
        rcases ih (y + st.hfw t (rowWidth st) + st.spacing) (t + 1) with h2 | h2
        · left
          exact h2
        · right
          rw [h2]
          have hA : y + st.hfw t (rowWidth st) + st.spacing + walkSum st (t + 1) m =
              y + walkSum st t (m + 1) := by
            simp only [walkSum]
            ring
          have hB : t + 1 + (m : Int) = t + ((m + 1 : Nat) : Int) := by
            push_cast
            ring
          rw [hA, hB]

/-- Helper: a point strictly inside an intersection is strictly inside both
rectangles. -/
lemma strictlyInside_intersected (a b : QRect) (px py : Int)
    (h : strictlyInside px py (a.intersected b)) :
    strictlyInside px py a ∧ strictlyInside px py b := by
  unfold QRect.intersected at h
  by_cases hE : (a.isEmpty || b.isEmpty) = true
  · rw [if_pos hE] at h
    simp only [strictlyInside, QRect.null] at h
    omega
  · rw [if_neg hE] at h
    by_cases hC : (max a.x b.x ≤ min (a.x + a.w - 1) (b.x + b.w - 1)) ∧
        (max a.y b.y ≤ min (a.y + a.h - 1) (b.y + b.h - 1))
    · rw [if_pos hC] at h
      simp only [strictlyInside] at h ⊢
      omega
    · rw [if_neg hC] at h
      simp only [strictlyInside, QRect.null] at h
      omega

/-- Helper: from an anchor at non-negative y with the hit row n rows below and
the point strictly between that row's edges, the rowAt walk descends row by row
and returns the hit row. -/
lemma rowAtLoop_descend (st : LV) (px py : Int)
    (hh : ∀ j : Int, 0 ≤ st.hfw j (rowWidth st)) (hs : 0 ≤ st.spacing)
    (hpx1 : st.spacing < px) (hpx2 : px < st.spacing + rowWidth st - 1) :
    ∀ (n fuel : Nat) (row y : Int),
      n + 1 ≤ fuel → 0 ≤ row → row + (n : Int) < st.count → 0 ≤ y →
      y + walkSum st row n < py →
      py < y + walkSum st row n + st.hfw (row + (n : Int)) (rowWidth st) - 1 →
      rowAtLoop st px py fuel row y = row + (n : Int) := by
  intro n
  induction n with
  | zero =>
      intro fuel row y hfuel hrow hcount hy hpy1 hpy2
      cases fuel with
      | zero => omega
      | succ f =>
          simp only [walkSum, add_zero, Nat.cast_zero] at hpy1 hpy2 hcount ⊢
          simp only [rowAtLoop]
          rw [if_pos ⟨hrow, hcount⟩, if_pos ?_]
          · simp only [QRect.contains, decide_eq_true_eq]
            omega
  | succ m ih =>
      intro fuel row y hfuel hrow hcount hy hpy1 hpy2
      cases fuel with
      | zero => omega
      | succ f =>
          have hWnn := walkSum_nonneg st
            (fun j => by have := hh j; omega) m (row + 1)
          have hterm := hh row
          have harg : row + ((m + 1 : Nat) : Int) = row + 1 + (m : Int) := by
            push_cast
            ring
          rw [harg] at hpy2 hcount
          simp only [walkSum] at hpy1 hpy2
          have hnc : ¬ (QRect.contains
              ⟨st.spacing, y, rowWidth st, st.hfw row (rowWidth st)⟩ px py = true) := by
            simp only [QRect.contains, decide_eq_true_eq]
            rintro ⟨_, _, _, _, _, h6⟩
            omega
          simp only [rowAtLoop]
          rw [if_pos ⟨hrow, by omega⟩, if_neg hnc,
            if_neg (by
              rw [abs_of_nonneg hy, abs_of_nonneg (by omega : (0 : Int) ≤ py)]
              omega),
            if_neg (by omega : ¬ py < y)]
          rw [ih f (row + 1) (y + st.hfw row (rowWidth st) + st.spacing)
            (by omega) (by omega) (by omega) (by omega) (by omega) (by omega)]
          push_cast
          ring

/-- C7, counterexample: three 10-pixel rows in a 12-pixel window with the
anchor 5 pixels above the window top (a state satisfying the normalized
invariants). The point (50, 6) is strictly inside visibleRect(1), yet rowAt
returns -1: the walk's early cutoff |y| + height + spacing > |p.y| fires at the
anchor because the offset is negative. -/
theorem c7_counterexample :
    satisfiesInvariants exC7 ∧ strictlyInside 50 6 (visualRect exC7 1) ∧
    rowAt exC7 50 6 = -1 := by
  refine ⟨by unfold satisfiesInvariants; decide, by unfold strictlyInside; decide, by decide⟩

/-- C7, amended: when the offset is 0 (the anchor row's top exactly at the
window top), rowAt returns r for every point strictly inside visibleRect(r),
for every valid row r at or after the anchor (rows before the anchor have an
empty visibleRect); with a negative offset the cutoff can misfire. -/
theorem c7_amended (st : LV) (r px py : Int)
    (hoff : st.offset = 0)
    (h0 : 0 ≤ st.firstVisibleRow) (h1 : st.firstVisibleRow ≤ r) (h2 : r < st.count)
    (hh : ∀ j : Int, 0 ≤ st.hfw j (rowWidth st)) (hs : 0 ≤ st.spacing)
    (hin : strictlyInside px py (visualRect st r)) :
    rowAt st px py = r := by
  unfold visualRect at hin
  rw [if_pos h1] at hin
  rcases visualRectLoop_walk st (r - st.firstVisibleRow).toNat st.offset
      st.firstVisibleRow with hcase | hcase
  · rw [hcase] at hin
    simp only [strictlyInside, QRect.null] at hin
    omega
  · rw [hcase] at hin
    obtain ⟨hinA, hinB⟩ := strictlyInside_intersected _ _ _ _ hin
    simp only [strictlyInside, viewportRect] at hinA hinB
    obtain ⟨hA1, hA2, hA3, hA4⟩ := hinA
    obtain ⟨hB1, hB2, hB3, hB4⟩ := hinB
    have hn : ((r - st.firstVisibleRow).toNat : Int) = r - st.firstVisibleRow :=
      Int.toNat_of_nonneg (by omega)
    simp only [rowAt]
    rw [if_neg (by rintro (h | h) <;> omega)]
    rw [rowAtLoop_descend st px py hh hs (by omega) (by omega)
      (r - st.firstVisibleRow).toNat (st.count.toNat + 1) st.firstVisibleRow st.offset
      (by omega) h0 (by omega) (by omega) hB3 hB4]
    omega

/-- C7, witness: the amended statement at the ten-row state anchored at offset
0: the point (50, 20) strictly inside visibleRect(1) hits row 1. -/
theorem c7_amended_witness :
    strictlyInside 50 20 (visualRect exC4 1) ∧ rowAt exC4 50 20 = 1 :=
  ⟨by unfold strictlyInside; decide,
   c7_amended exC4 1 50 20 (by decide) (by decide) (by decide) (by decide)
     (fun j => by show (0 : Int) ≤ 10; norm_num) (by decide)
     (by unfold strictlyInside; decide)⟩

/-- C10, witness: removing row 1 of a 5-element collection with anchor 3
leaves (3, -2) unchanged, and index 3 now denotes the element formerly at
index 4. -/
theorem c10_witness :
    rowsRemovedState 3 (-2) 1 1 4 = (3, -2) ∧
    (removeRange ([10, 20, 30, 40, 50] : List Int) 1 1)[(3 : Int).toNat]? =
      ([10, 20, 30, 40, 50] : List Int)[((3 : Int) + (1 - 1 + 1)).toNat]? := by
  have h := c10_removed_outside 3 (-2) 1 1 4 [10, 20, 30, 40, 50] (Or.inr (by decide))
  exact ⟨h.1, h.2 (by decide) (by decide) (by decide) (by decide)⟩

end QtMW
